import Mathlib

/-!
Shallow embedding of the recipe-cost program (src/python.py).

Modelling conventions:
- Python numbers (quantities, prices, costs) are modelled as rationals (ℚ);
  every value in the claims is exactly representable.
- A Python dict is modelled as an association list `List (String × ℚ)` in
  insertion order; `dict_get` is dict lookup (first binding wins).  Key
  uniqueness, which Python dicts guarantee by construction, appears as an
  explicit `Nodup` hypothesis where a claim needs it.
- `raise ValueError` is modelled by `Except IngredientError`; the four raise
  sites of `validate_ingredient_input` map to the four constructors.
- The set comprehension in `cheapest_store` is modelled as the deduplicated
  list of store names; Python set iteration order is unspecified, and every
  claim proved here depends only on set membership, not on that order.
  Python `min` over an empty sequence raises; `cheapest_store` therefore
  returns an `Option`, with `none` modelling that error.
-/

/-- Lookup in a Python-dict-like association list: the first binding wins. -/
def dict_get (d : List (String × ℚ)) (k : String) : Option ℚ :=
  match d with
  | [] => none
  | p :: rest => if p.1 = k then some p.2 else dict_get rest k

/-- One entry of `recipe.ingredients` (a Python dict with fixed fields). -/
structure Ingredient where
  name : String
  quantity : ℚ
  price_by_store : List (String × ℚ)
deriving DecidableEq, Repr

/-- The state of a `RecipeCost` object. -/
structure RecipeCost where
  name : String
  servings : ℤ
  ingredients : List Ingredient
deriving DecidableEq, Repr

/-- `RecipeCost.__init__`: store name and servings, start with no ingredients. -/
def RecipeCost.init (name : String) (servings : ℤ) : RecipeCost :=
  { name := name, servings := servings, ingredients := [] }

/-- The four `ValueError` raise sites of `validate_ingredient_input`. -/
inductive IngredientError where
  | emptyName
  | nonpositiveQuantity
  | emptyPriceMap
  | nonpositivePrice (store : String)
deriving DecidableEq, Repr

/-- `validate_ingredient_input`: the checks in source order; `some e` models
`raise ValueError`, `none` means the wrapped call proceeds. -/
def validate_ingredient_input (name : String) (quantity : ℚ)
    (price_by_store : List (String × ℚ)) : Option IngredientError :=
  if name = "" then some .emptyName
  else if quantity ≤ 0 then some .nonpositiveQuantity
  else if price_by_store = [] then some .emptyPriceMap
  else
    match price_by_store.find? (fun sp => decide (sp.2 ≤ 0)) with
    | some sp => some (.nonpositivePrice sp.1)
    | none => none

/-- `RecipeCost.add_ingredient` (decorated with `validate_ingredient_input`):
on success appends the new ingredient dict to `self.ingredients`. -/
def RecipeCost.add_ingredient (r : RecipeCost) (name : String) (quantity : ℚ)
    (price_by_store : List (String × ℚ)) : Except IngredientError RecipeCost :=
  match validate_ingredient_input name quantity price_by_store with
  | some e => .error e
  | none => .ok { r with ingredients :=
      r.ingredients ++ [{ name := name, quantity := quantity,
                          price_by_store := price_by_store }] }

/-- The caller-side view of `add_ingredient` as in `run_recipe_cost_demo`:
the `ValueError` is caught and the recipe is left as it was. -/
def RecipeCost.add_ingredient_run (r : RecipeCost) (name : String) (quantity : ℚ)
    (price_by_store : List (String × ℚ)) : RecipeCost :=
  match r.add_ingredient name quantity price_by_store with
  | .error _ => r
  | .ok r2 => r2

/-- `RecipeCost.ingredient_cost_for_store`: `quantity * price` when the store
is priced, `None` otherwise. -/
def ingredient_cost_for_store (ingredient : Ingredient) (store_name : String) :
    Option ℚ :=
  let cost_func := fun (qty price : ℚ) => qty * price
  match dict_get ingredient.price_by_store store_name with
  | none => none
  | some price => some (cost_func ingredient.quantity price)

/-- The loop body of `total_cost_at_store`: `if c is not None: costs.append(c)`. -/
def append_cost_if_present (store_name : String) (cs : List ℚ) (ing : Ingredient) :
    List ℚ :=
  match ingredient_cost_for_store ing store_name with
  | some c => cs ++ [c]
  | none => cs

/-- `RecipeCost.total_cost_at_store`: build the list of non-`None` per-ingredient
costs in order, then sum it. -/
def RecipeCost.total_cost_at_store (r : RecipeCost) (store_name : String) : ℚ :=
  let costs := r.ingredients.foldl (append_cost_if_present store_name) []
  costs.sum

/-- `RecipeCost.per_serving_cost`: guarded division by `servings`. -/
def RecipeCost.per_serving_cost (r : RecipeCost) (store_name : String) : ℚ :=
  let total := r.total_cost_at_store store_name
  if r.servings = 0 then 0 else total / (r.servings : ℚ)

/-- The store-name set comprehension of `cheapest_store`, concretised as the
deduplicated list of every store key of every ingredient. -/
def all_stores (r : RecipeCost) : List String :=
  (r.ingredients.map (fun ing => ing.price_by_store.map Prod.fst)).flatten.dedup

/-- Python `min(list, key=cost)` on a nonempty list: the first element of
minimal cost wins. -/
def min_by_cost (first : String × ℚ) (rest : List (String × ℚ)) : String × ℚ :=
  rest.foldl (fun best p => if p.2 < best.2 then p else best) first

/-- `RecipeCost.cheapest_store`: `(None, 0)` for no ingredients, otherwise the
minimum-total store among `all_stores`.  The outer `Option` models the
`ValueError` Python `min` raises when every price map is empty. -/
def RecipeCost.cheapest_store (r : RecipeCost) : Option (Option String × ℚ) :=
  if r.ingredients.isEmpty then some (none, 0)
  else
    let store_costs := (all_stores r).map
      (fun store => (store, r.total_cost_at_store store))
    match store_costs with
    | [] => none
    | sc :: rest => some (some (min_by_cost sc rest).1, (min_by_cost sc rest).2)

/-- The recipe of the worked scenario in the spec, built through the public
`add_ingredient` interface. -/
def pancakes : RecipeCost :=
  ((RecipeCost.init "Pancakes" 4).add_ingredient_run "Flour" 2 [("A", 3), ("B", 2)]
    ).add_ingredient_run "Milk" 1 [("A", 4), ("B", 5)]

/-- A recipe with negative servings, accepted without complaint by the
constructor, for exercising `per_serving_cost` below zero. -/
def negRecipe : RecipeCost :=
  (RecipeCost.init "Neg" (-2)).add_ingredient_run "Item" 1 [("A", 3)]

/-- One data row of `recipe_costs.csv`, as passed to `writer.writerow`. -/
structure CsvRow where
  ingredient : String
  quantity : ℚ
  store : String
  price_per_unit : ℚ
  cost : ℚ
deriving DecidableEq, Repr

/-- The `fieldnames` header written by `writer.writeheader()`. -/
def csv_fieldnames : List String :=
  ["ingredient", "quantity", "store", "price_per_unit", "cost"]

/-- The dict passed to `writer.writerow` for ingredient `ing` and price-map
entry `sp`: `cost = qty * price`. -/
def csv_row_of (ing : Ingredient) (sp : String × ℚ) : CsvRow :=
  { ingredient := ing.name, quantity := ing.quantity, store := sp.1,
    price_per_unit := sp.2, cost := ing.quantity * sp.2 }

/-- `save_to_csv`: the file content as (header, data rows); the nested loops
write one row per (ingredient, store-price entry), in order. -/
def save_to_csv (recipe : RecipeCost) : List String × List CsvRow :=
  let rows := recipe.ingredients.foldl (fun acc ing =>
    ing.price_by_store.foldl (fun acc2 sp => acc2 ++ [csv_row_of ing sp]) acc) []
  (csv_fieldnames, rows)

/-- Follows the spec wording for the total at a store: the sum of
quantity * price over exactly the ingredients whose price map contains the
store. -/
def total_cost_at_store_spec (r : RecipeCost) (store_name : String) : ℚ :=
  ((r.ingredients.filter
      (fun ing => (dict_get ing.price_by_store store_name).isSome)).map
    (fun ing => ing.quantity * (dict_get ing.price_by_store store_name).getD 0)).sum

/-- Follows the spec wording for the CSV rows: one row per (ingredient, store)
pair present in that ingredient price map, with cost = quantity *
price_per_unit, ordered by ingredient insertion order and then store iteration
order within each ingredient. -/
def csv_rows_spec (r : RecipeCost) : List CsvRow :=
  (r.ingredients.map (fun ing =>
    ing.price_by_store.map (fun sp =>
      { ingredient := ing.name, quantity := ing.quantity, store := sp.1,
        price_per_unit := sp.2, cost := ing.quantity * sp.2 }))).flatten

/-- The rejection condition as the spec states it: empty name, non-positive
quantity, empty price map, or some non-positive price. -/
def invalid_ingredient_input (name : String) (quantity : ℚ)
    (price_by_store : List (String × ℚ)) : Prop :=
  name = "" ∨ quantity ≤ 0 ∨ price_by_store = [] ∨ ∃ sp ∈ price_by_store, sp.2 ≤ 0

instance (name : String) (quantity : ℚ) (price_by_store : List (String × ℚ)) :
    Decidable (invalid_ingredient_input name quantity price_by_store) := by
  unfold invalid_ingredient_input
  infer_instance

/-- The result a query method returns, tagged by which method ran. -/
inductive QueryAnswer where
  | ingCost (c : Option ℚ)
  | totalCost (c : ℚ)
  | perServing (c : ℚ)
  | cheapest (c : Option (Option String × ℚ))
deriving DecidableEq, Repr

/-- One call on a `RecipeCost` object: the mutating `add_ingredient` (as the
demo loop invokes it, catching the error) or one of the four query methods. -/
inductive Op where
  | addIng (name : String) (quantity : ℚ) (price_by_store : List (String × ℚ))
  | ingCostAt (i : Nat) (store : String)
  | totalAt (store : String)
  | perServingAt (store : String)
  | cheapest
deriving DecidableEq, Repr

/-- Whether the call is the mutating `add_ingredient`. -/
def Op.isAdd : Op → Bool
  | .addIng _ _ _ => true
  | _ => false

/-- State-passing semantics of one call: the answer (if it was a query) and
the object state after the call.  Each query method only reads `self`, so it
hands the state through; `add_ingredient` is the only writer. -/
def runOp (r : RecipeCost) : Op → Option QueryAnswer × RecipeCost
  | .addIng n q ps => (none, r.add_ingredient_run n q ps)
  | .ingCostAt i s =>
      (some (.ingCost ((r.ingredients.get? i).bind
        (fun ing => ingredient_cost_for_store ing s))), r)
  | .totalAt s => (some (.totalCost (r.total_cost_at_store s)), r)
  | .perServingAt s => (some (.perServing (r.per_serving_cost s)), r)
  | .cheapest => (some (.cheapest r.cheapest_store), r)

/-- The state after an interleaved sequence of calls. -/
def runOps (r : RecipeCost) (ops : List Op) : RecipeCost :=
  ops.foldl (fun s op => (runOp s op).2) r

/-! ### Helper lemmas -/

theorem validate_ingredient_input_eq_none (name : String) (quantity : ℚ)
    (ps : List (String × ℚ)) (hn : name ≠ "") (hq : 0 < quantity)
    (hps : ps ≠ []) (hp : ∀ sp ∈ ps, 0 < sp.2) :
    validate_ingredient_input name quantity ps = none := by
  unfold validate_ingredient_input
  rw [if_neg hn, if_neg (not_le.mpr hq), if_neg hps]
  have hfind : ps.find? (fun sp => decide (sp.2 ≤ 0)) = none := by
    apply List.find?_eq_none.mpr
    intro sp hsp
    simpa using not_le.mpr (hp sp hsp)
  rw [hfind]

theorem add_ingredient_run_ok (r : RecipeCost) (name : String) (quantity : ℚ)
    (ps : List (String × ℚ)) (hn : name ≠ "") (hq : 0 < quantity)
    (hps : ps ≠ []) (hp : ∀ sp ∈ ps, 0 < sp.2) :
    r.add_ingredient_run name quantity ps =
      { r with ingredients := r.ingredients ++
          [{ name := name, quantity := quantity, price_by_store := ps }] } := by
  unfold RecipeCost.add_ingredient_run RecipeCost.add_ingredient
  rw [validate_ingredient_input_eq_none name quantity ps hn hq hps hp]

theorem pancakes_eq : pancakes =
    { name := "Pancakes", servings := 4,
      ingredients :=
        [{ name := "Flour", quantity := 2, price_by_store := [("A", 3), ("B", 2)] },
         { name := "Milk", quantity := 1, price_by_store := [("A", 4), ("B", 5)] }] } := by
  unfold pancakes
  rw [add_ingredient_run_ok _ _ _ _ (by decide) (by decide) (by decide) (by decide),
    add_ingredient_run_ok _ _ _ _ (by decide) (by decide) (by decide) (by decide)]
  rfl

theorem pancakes_total_A : pancakes.total_cost_at_store "A" = 10 := by
  rw [pancakes_eq]
  simp [RecipeCost.total_cost_at_store, append_cost_if_present,
    ingredient_cost_for_store, dict_get]
  norm_num

theorem pancakes_total_B : pancakes.total_cost_at_store "B" = 9 := by
  rw [pancakes_eq]
  simp [RecipeCost.total_cost_at_store, append_cost_if_present,
    ingredient_cost_for_store, dict_get]
  norm_num

theorem all_stores_pancakes : all_stores pancakes = ["A", "B"] := by
  rw [pancakes_eq]; decide

theorem pancakes_cheapest : pancakes.cheapest_store = some (some "B", 9) := by
  unfold RecipeCost.cheapest_store
  rw [all_stores_pancakes]
  have h1 : pancakes.ingredients.isEmpty = false := by rw [pancakes_eq]; rfl
  rw [h1]
  simp [min_by_cost, pancakes_total_A, pancakes_total_B]
  norm_num

theorem pancakes_per_serving : pancakes.per_serving_cost "B" = 2.25 := by
  unfold RecipeCost.per_serving_cost
  rw [pancakes_total_B]
  have hs : pancakes.servings = 4 := by rw [pancakes_eq]
  rw [hs]
  norm_num

theorem foldl_append_cost (S : String) (l : List Ingredient) :
    ∀ acc : List ℚ,
      l.foldl (append_cost_if_present S) acc
        = acc ++ l.filterMap (fun ing => ingredient_cost_for_store ing S) := by
  induction l with
  | nil => intro acc; simp
  | cons x l ih =>
    intro acc
    cases hfx : ingredient_cost_for_store x S <;>
      simp [List.foldl_cons, append_cost_if_present, hfx, ih, List.filterMap_cons]

theorem foldl_append_flatten {α β : Type} (g : α → List β) (l : List α) :
    ∀ acc : List β,
      l.foldl (fun cs x => cs ++ g x) acc = acc ++ (l.map g).flatten := by
  induction l with
  | nil => intro acc; simp
  | cons x l ih => intro acc; simp [List.foldl_cons, ih]

theorem total_cost_eq_filterMap (r : RecipeCost) (S : String) :
    r.total_cost_at_store S =
      (r.ingredients.filterMap (fun ing => ingredient_cost_for_store ing S)).sum := by
  show (r.ingredients.foldl (append_cost_if_present S) []).sum = _
  rw [foldl_append_cost]
  simp

theorem ingredient_cost_eq (ing : Ingredient) (S : String) :
    ingredient_cost_for_store ing S
      = (dict_get ing.price_by_store S).map (fun p => ing.quantity * p) := by
  cases h : dict_get ing.price_by_store S <;> simp [ingredient_cost_for_store, h]

theorem filterMap_cost_eq_spec (S : String) (l : List Ingredient) :
    (l.filterMap (fun ing => ingredient_cost_for_store ing S)).sum
      = ((l.filter (fun ing => (dict_get ing.price_by_store S).isSome)).map
          (fun ing => ing.quantity * (dict_get ing.price_by_store S).getD 0)).sum := by
  induction l with
  | nil => simp
  | cons x l ih =>
    simp only [ingredient_cost_eq] at ih ⊢
    cases h : dict_get x.price_by_store S <;>
      simp [List.filterMap_cons, List.filter_cons, h, ih]

theorem min_by_cost_mem (first : String × ℚ) (rest : List (String × ℚ)) :
    min_by_cost first rest ∈ first :: rest := by
  induction rest generalizing first with
  | nil => simp [min_by_cost]
  | cons q rest ih =>
    have hstep : min_by_cost first (q :: rest)
        = min_by_cost (if q.2 < first.2 then q else first) rest := rfl
    rw [hstep]
    by_cases hq : q.2 < first.2
    · rw [if_pos hq]
      rcases List.mem_cons.mp (ih q) with h | h
      · simp [h]
      · simp [List.mem_cons.mpr (Or.inr (List.mem_cons.mpr (Or.inr h)))]
    · rw [if_neg hq]
      rcases List.mem_cons.mp (ih first) with h | h
      · simp [h]
      · simp [List.mem_cons.mpr (Or.inr (List.mem_cons.mpr (Or.inr h)))]

theorem min_by_cost_le (first : String × ℚ) (rest : List (String × ℚ)) :
    ∀ p ∈ first :: rest, (min_by_cost first rest).2 ≤ p.2 := by
  induction rest generalizing first with
  | nil =>
    intro p hp
    rcases List.mem_cons.mp hp with h | h
    · subst h; exact le_refl _
    · cases h
  | cons q rest ih =>
    intro p hp
    have hstep : min_by_cost first (q :: rest)
        = min_by_cost (if q.2 < first.2 then q else first) rest := rfl
    have hhead := ih (if q.2 < first.2 then q else first) _
      (List.mem_cons_self _ _)
    have hle_first : (if q.2 < first.2 then q else first).2 ≤ first.2 := by
      by_cases hq : q.2 < first.2
      · rw [if_pos hq]; exact le_of_lt hq
      · rw [if_neg hq]
    have hle_q : (if q.2 < first.2 then q else first).2 ≤ q.2 := by
      by_cases hq : q.2 < first.2
      · rw [if_pos hq]
      · rw [if_neg hq]; exact le_of_not_lt hq
    rcases List.mem_cons.mp hp with h | h
    · subst h
      rw [hstep]
      exact le_trans hhead hle_first
    · rcases List.mem_cons.mp h with h2 | h2
      · subst h2
        rw [hstep]
        exact le_trans hhead hle_q
      · rw [hstep]
        exact ih _ p (List.mem_cons.mpr (Or.inr h2))

theorem csv_inner_fold (ing : Ingredient) (ps : List (String × ℚ)) :
    ∀ acc : List CsvRow,
      ps.foldl (fun acc2 sp => acc2 ++ [csv_row_of ing sp]) acc
        = acc ++ ps.map (csv_row_of ing) := by
  induction ps with
  | nil => intro acc; simp
  | cons sp ps ih => intro acc; simp [List.foldl_cons, ih]

theorem csv_outer_fold (l : List Ingredient) :
    ∀ acc : List CsvRow,
      l.foldl (fun acc ing => ing.price_by_store.foldl
          (fun acc2 sp => acc2 ++ [csv_row_of ing sp]) acc) acc
        = acc ++ (l.map (fun ing => ing.price_by_store.map (csv_row_of ing))).flatten := by
  induction l with
  | nil => intro acc; simp
  | cons x l ih =>
    intro acc
    rw [List.foldl_cons, csv_inner_fold, ih]
    simp [List.append_assoc]

theorem save_to_csv_rows_eq (r : RecipeCost) :
    (save_to_csv r).2 = csv_rows_spec r := by
  show r.ingredients.foldl (fun acc ing =>
    ing.price_by_store.foldl (fun acc2 sp => acc2 ++ [csv_row_of ing sp]) acc) [] = _
  rw [csv_outer_fold, List.nil_append]
  rfl

theorem rows_filter_not_mem (ing : Ingredient) (S : String) :
    ∀ ps : List (String × ℚ), S ∉ ps.map Prod.fst →
      (ps.map (csv_row_of ing)).filter (fun row => decide (row.store = S)) = [] := by
  intro ps
  induction ps with
  | nil => intro _; simp
  | cons sp ps ih =>
    intro h
    simp only [List.map_cons, List.mem_cons, not_or] at h
    obtain ⟨h1, h2⟩ := h
    simp [List.filter_cons, csv_row_of, Ne.symm h1, ih h2]

theorem rows_filter_sum (ing : Ingredient) (S : String) :
    ∀ ps : List (String × ℚ), (ps.map Prod.fst).Nodup →
      (((ps.map (csv_row_of ing)).filter (fun row => decide (row.store = S))).map
          CsvRow.cost).sum
        = ing.quantity * (dict_get ps S).getD 0 := by
  intro ps
  induction ps with
  | nil => intro _; simp [dict_get]
  | cons sp ps ih =>
    intro hnd
    simp only [List.map_cons, List.nodup_cons] at hnd
    obtain ⟨hk, hnd2⟩ := hnd
    by_cases he : sp.1 = S
    · have hrest : S ∉ ps.map Prod.fst := he ▸ hk
      simp [dict_get, he, csv_row_of, List.filter_cons,
        rows_filter_not_mem ing S ps hrest]
    · simp [dict_get, he, csv_row_of, List.filter_cons, ih hnd2]

theorem csv_sum_per_store (S : String) : ∀ l : List Ingredient,
    (∀ ing ∈ l, (ing.price_by_store.map Prod.fst).Nodup) →
    ((((l.map (fun ing => ing.price_by_store.map (csv_row_of ing))).flatten).filter
        (fun row => decide (row.store = S))).map CsvRow.cost).sum
      = (l.filterMap (fun ing => ingredient_cost_for_store ing S)).sum := by
  intro l
  induction l with
  | nil => intro _; simp
  | cons x l ih =>
    intro h
    have hx := h x (List.mem_cons_self _ _)
    have hl : ∀ ing ∈ l, (ing.price_by_store.map Prod.fst).Nodup :=
      fun ing hing => h ing (List.mem_cons.mpr (Or.inr hing))
    simp only [List.map_cons, List.flatten_cons, List.filter_append,
      List.map_append, List.sum_append]
    rw [rows_filter_sum x S x.price_by_store hx, ih hl]
    cases h2 : dict_get x.price_by_store S <;>
      simp [List.filterMap_cons, ingredient_cost_eq, h2]

theorem runOp_query_state (r : RecipeCost) (op : Op) (h : op.isAdd = false) :
    (runOp r op).2 = r := by
  cases op with
  | addIng n q ps => simp [Op.isAdd] at h
  | ingCostAt i s => rfl
  | totalAt s => rfl
  | perServingAt s => rfl
  | cheapest => rfl

theorem runOps_cons (r : RecipeCost) (op : Op) (ops : List Op) :
    runOps r (op :: ops) = runOps (runOp r op).2 ops := rfl

theorem runOps_filter_adds (r : RecipeCost) (ops : List Op) :
    runOps r ops = runOps r (ops.filter Op.isAdd) := by
  induction ops generalizing r with
  | nil => rfl
  | cons op ops ih =>
    cases hop : op.isAdd
    · simp [runOps_cons, runOp_query_state r op hop, List.filter_cons, hop, ih]
    · simp [runOps_cons, List.filter_cons, hop, ih]

theorem negRecipe_eq : negRecipe =
    { name := "Neg", servings := -2,
      ingredients :=
        [{ name := "Item", quantity := 1, price_by_store := [("A", 3)] }] } := by
  unfold negRecipe
  rw [add_ingredient_run_ok _ _ _ _ (by decide) (by decide) (by decide) (by decide)]
  rfl

theorem negRecipe_total : negRecipe.total_cost_at_store "A" = 3 := by
  rw [negRecipe_eq]
  simp [RecipeCost.total_cost_at_store, append_cost_if_present,
    ingredient_cost_for_store, dict_get]

theorem validate_none_iff (name : String) (quantity : ℚ)
    (ps : List (String × ℚ)) :
    validate_ingredient_input name quantity ps = none ↔
      ¬ invalid_ingredient_input name quantity ps := by
  unfold validate_ingredient_input invalid_ingredient_input
  by_cases h1 : name = ""
  · simp [h1]
  by_cases h2 : quantity ≤ 0
  · simp [h1, h2]
  by_cases h3 : ps = []
  · simp [h1, h2, h3]
  rw [if_neg h1, if_neg h2, if_neg h3]
  cases hf : ps.find? (fun sp => decide (sp.2 ≤ 0)) with
  | none =>
    have hall := List.find?_eq_none.mp hf
    constructor
    · intro _ hcon
      rcases hcon with h | h | h | ⟨sp, hsp, hle⟩
      · exact h1 h
      · exact h2 h
      · exact h3 h
      · exact absurd hle (by simpa using hall sp hsp)
    · intro _
      rfl
  | some sp =>
    have hmem := List.mem_of_find?_eq_some hf
    have hle : sp.2 ≤ 0 := by simpa using List.find?_some hf
    constructor
    · intro habs
      simp at habs
    · intro hno
      exact absurd (Or.inr (Or.inr (Or.inr ⟨sp, hmem, hle⟩))) hno

/-! ### Claim theorems -/

/-- C2: `total_cost_at_store(S)` equals the sum of quantity * price over
exactly the ingredients whose price map contains `S`; ingredients not priced
at `S` are excluded entirely, and the result is `0` for an empty ingredient
list or when no ingredient is priced at `S`. -/
theorem total_cost_at_store_correct (r : RecipeCost) (S : String) :
    r.total_cost_at_store S = total_cost_at_store_spec r S ∧
    (r.ingredients = [] → r.total_cost_at_store S = 0) ∧
    ((∀ ing ∈ r.ingredients, dict_get ing.price_by_store S = none) →
      r.total_cost_at_store S = 0) := by
  have hmain : r.total_cost_at_store S = total_cost_at_store_spec r S := by
    rw [total_cost_eq_filterMap]
    exact filterMap_cost_eq_spec S r.ingredients
  refine ⟨hmain, ?_, ?_⟩
  · intro h
    rw [total_cost_eq_filterMap, h]
    simp
  · intro h
    rw [total_cost_eq_filterMap]
    have hnil : r.ingredients.filterMap
        (fun ing => ingredient_cost_for_store ing S) = [] := by
      apply List.filterMap_eq_nil_iff.mpr
      intro ing hing
      rw [ingredient_cost_eq, h ing hing]
      rfl
    rw [hnil]
    rfl

/-- C2 witness: on the empty recipe the total at any store is `0`. -/
theorem total_cost_at_store_correct_witness :
    (RecipeCost.init "Empty" 1).total_cost_at_store "A" = 0 :=
  (total_cost_at_store_correct (RecipeCost.init "Empty" 1) "A").2.1 rfl

/-- C4: `per_serving_cost(S)` is `0` when `servings = 0` and otherwise the
total at `S` divided by `servings`. -/
theorem per_serving_cost_correct (r : RecipeCost) (S : String) :
    (r.servings = 0 → r.per_serving_cost S = 0) ∧
    (r.servings ≠ 0 →
      r.per_serving_cost S = r.total_cost_at_store S / (r.servings : ℚ)) := by
  unfold RecipeCost.per_serving_cost
  constructor
  · intro h
    rw [if_pos h]
  · intro h
    rw [if_neg h]

/-- C4 witness: at the pancakes recipe (4 servings) the division branch runs. -/
theorem per_serving_cost_correct_witness :
    pancakes.per_serving_cost "B"
      = pancakes.total_cost_at_store "B" / (pancakes.servings : ℚ) :=
  (per_serving_cost_correct pancakes "B").2 (by rw [pancakes_eq]; decide)

/-- C5: `ingredient_cost_for_store` yields `quantity * price` when the store
is a key of the price map (mapping to `price`), and `None` when it is not. -/
theorem ingredient_cost_for_store_correct (ing : Ingredient) (S : String) :
    (∀ price, dict_get ing.price_by_store S = some price →
      ingredient_cost_for_store ing S = some (ing.quantity * price)) ∧
    (dict_get ing.price_by_store S = none →
      ingredient_cost_for_store ing S = none) := by
  constructor
  · intro price h
    rw [ingredient_cost_eq, h]
    rfl
  · intro h
    rw [ingredient_cost_eq, h]
    rfl

/-- C5 witness: Flour at store B costs 2 * 2. -/
theorem ingredient_cost_for_store_correct_witness :
    ingredient_cost_for_store
      { name := "Flour", quantity := 2, price_by_store := [("A", 3), ("B", 2)] }
      "B" = some (2 * 2) :=
  (ingredient_cost_for_store_correct
    { name := "Flour", quantity := 2, price_by_store := [("A", 3), ("B", 2)] }
    "B").1 2 (by decide)

/-- C6: the worked scenario: recipe Pancakes with 4 servings, Flour(2, A:3 B:2)
and Milk(1, A:4 B:5); total at A is 10, at B is 9, the cheapest store is
(B, 9), and the per-serving cost at B is 2.25. -/
theorem pancakes_scenario_correct :
    pancakes.total_cost_at_store "A" = 10 ∧
    pancakes.total_cost_at_store "B" = 9 ∧
    pancakes.cheapest_store = some (some "B", 9) ∧
    pancakes.per_serving_cost "B" = 2.25 :=
  ⟨pancakes_total_A, pancakes_total_B, pancakes_cheapest, pancakes_per_serving⟩

/-- C3: `add_ingredient` fails exactly when the name is empty, the quantity is
non-positive, the price map is empty, or some price is non-positive; on
failure the caught-error path leaves the recipe unchanged, and on success
exactly the new ingredient is appended at the end. -/
theorem add_ingredient_correct (r : RecipeCost) (name : String) (quantity : ℚ)
    (ps : List (String × ℚ)) :
    ((∃ e, r.add_ingredient name quantity ps = Except.error e) ↔
      invalid_ingredient_input name quantity ps) ∧
    (invalid_ingredient_input name quantity ps →
      r.add_ingredient_run name quantity ps = r) ∧
    (¬ invalid_ingredient_input name quantity ps →
      r.add_ingredient name quantity ps = Except.ok
        { r with ingredients := r.ingredients ++
            [{ name := name, quantity := quantity, price_by_store := ps }] }) := by
  have hiff := validate_none_iff name quantity ps
  refine ⟨⟨?_, ?_⟩, ?_, ?_⟩
  · rintro ⟨e, he⟩
    by_contra hinv
    have hnone := hiff.mpr hinv
    unfold RecipeCost.add_ingredient at he
    rw [hnone] at he
    simp at he
  · intro hinv
    cases hv : validate_ingredient_input name quantity ps with
    | none => exact absurd hinv (hiff.mp hv)
    | some e =>
      refine ⟨e, ?_⟩
      unfold RecipeCost.add_ingredient
      rw [hv]
  · intro hinv
    cases hv : validate_ingredient_input name quantity ps with
    | none => exact absurd hinv (hiff.mp hv)
    | some e =>
      unfold RecipeCost.add_ingredient_run RecipeCost.add_ingredient
      rw [hv]
  · intro hvalid
    have hv := hiff.mpr hvalid
    unfold RecipeCost.add_ingredient
    rw [hv]

/-- C3 witness: adding an empty-named ingredient leaves the recipe unchanged. -/
theorem add_ingredient_correct_witness :
    (RecipeCost.init "R" 1).add_ingredient_run "" 1 [("A", 1)]
      = RecipeCost.init "R" 1 :=
  (add_ingredient_correct (RecipeCost.init "R" 1) "" 1 [("A", 1)]).2.1 (Or.inl rfl)

/-- C7: summing the cost column of the CSV rows whose store field is `S`
reproduces `total_cost_at_store S`, for recipes whose price maps have the key
uniqueness every Python dict guarantees. -/
theorem csv_roundtrip_correct (r : RecipeCost) (S : String)
    (hdict : ∀ ing ∈ r.ingredients, (ing.price_by_store.map Prod.fst).Nodup) :
    (((save_to_csv r).2.filter (fun row => decide (row.store = S))).map
        CsvRow.cost).sum = r.total_cost_at_store S := by
  rw [save_to_csv_rows_eq, total_cost_eq_filterMap]
  exact csv_sum_per_store S r.ingredients hdict

/-- C7 witness: on the pancakes recipe the CSV cost column at store A sums to
the total at A. -/
theorem csv_roundtrip_correct_witness :
    (((save_to_csv pancakes).2.filter (fun row => decide (row.store = "A"))).map
        CsvRow.cost).sum = pancakes.total_cost_at_store "A" :=
  csv_roundtrip_correct pancakes "A" (by rw [pancakes_eq]; decide)

/-- C8: the CSV export is the header followed by exactly one row per
(ingredient, store) pair present in that ingredient price map, in ingredient
insertion order then store iteration order, each row carrying
cost = quantity * price_per_unit. -/
theorem save_to_csv_correct (r : RecipeCost) :
    save_to_csv r = (csv_fieldnames, csv_rows_spec r) ∧
    ∀ row ∈ (save_to_csv r).2, row.cost = row.quantity * row.price_per_unit := by
  constructor
  · exact Prod.ext rfl (save_to_csv_rows_eq r)
  · intro row hrow
    rw [save_to_csv_rows_eq] at hrow
    unfold csv_rows_spec at hrow
    obtain ⟨rows, hrows, hrow2⟩ := List.mem_flatten.mp hrow
    obtain ⟨ing, hing, hrfl⟩ := List.mem_map.mp hrows
    rw [← hrfl] at hrow2
    obtain ⟨sp, hsp, hrfl2⟩ := List.mem_map.mp hrow2
    rw [← hrfl2]

/-- C8 witness: the first pancakes row satisfies cost = quantity * price. -/
theorem save_to_csv_correct_witness :
    ({ ingredient := "Flour", quantity := 2, store := "A", price_per_unit := 3,
       cost := 6 } : CsvRow).cost
      = ({ ingredient := "Flour", quantity := 2, store := "A",
           price_per_unit := 3, cost := 6 } : CsvRow).quantity
        * ({ ingredient := "Flour", quantity := 2, store := "A",
             price_per_unit := 3, cost := 6 } : CsvRow).price_per_unit := by
  apply (save_to_csv_correct pancakes).2
  rw [save_to_csv_rows_eq, pancakes_eq]
  unfold csv_rows_spec
  norm_num [csv_row_of]

/-- C9: the four query methods return the state unchanged (name, servings and
ingredient sequence untouched), and an interleaved run of calls reaches the
same state as the run of its `add_ingredient` calls alone. -/
theorem queries_do_not_modify (r : RecipeCost) (ops : List Op) (op : Op)
    (h : op.isAdd = false) :
    ((runOp r op).2.name = r.name ∧ (runOp r op).2.servings = r.servings ∧
      (runOp r op).2.ingredients = r.ingredients) ∧
    runOps r ops = runOps r (ops.filter Op.isAdd) := by
  refine ⟨?_, runOps_filter_adds r ops⟩
  rw [runOp_query_state r op h]
  exact ⟨rfl, rfl, rfl⟩

/-- C9 witness: a concrete interleaving on the pancakes recipe. -/
theorem queries_do_not_modify_witness :
    (runOp pancakes (Op.totalAt "A")).2.ingredients = pancakes.ingredients ∧
    runOps pancakes [Op.totalAt "A", Op.cheapest]
      = runOps pancakes ([Op.totalAt "A", Op.cheapest].filter Op.isAdd) := by
  have h := queries_do_not_modify pancakes [Op.totalAt "A", Op.cheapest]
    (Op.totalAt "A") rfl
  exact ⟨h.1.2.2, h.2⟩

/-- C10: the constructor accepts any integer servings without validation, and
for negative servings `per_serving_cost` divides by the negative count — in
particular the result is negative whenever the total is positive; only
`servings = 0` takes the guard branch. -/
theorem init_no_validation_correct (name : String) (servings : ℤ)
    (r : RecipeCost) (S : String) (hneg : r.servings < 0) :
    RecipeCost.init name servings =
      { name := name, servings := servings, ingredients := [] } ∧
    r.per_serving_cost S = r.total_cost_at_store S / (r.servings : ℚ) ∧
    (0 < r.total_cost_at_store S → r.per_serving_cost S < 0) := by
  have hne : r.servings ≠ 0 := ne_of_lt hneg
  have hps : r.per_serving_cost S
      = r.total_cost_at_store S / (r.servings : ℚ) := by
    unfold RecipeCost.per_serving_cost
    rw [if_neg hne]
  refine ⟨rfl, hps, ?_⟩
  intro hpos
  rw [hps]
  apply div_neg_of_pos_of_neg hpos
  exact_mod_cast hneg

/-- C10 witness: a recipe constructed with servings = -2 divides its positive
total into a negative per-serving cost. -/
theorem init_no_validation_correct_witness :
    negRecipe.per_serving_cost "A" < 0 :=
  (init_no_validation_correct "Neg" (-2) negRecipe "A"
    (by rw [negRecipe_eq]; decide)).2.2
    (by rw [negRecipe_total]; norm_num)

/-- C1: for a recipe whose ingredients all carry a nonempty price map (the
invariant `add_ingredient` enforces), `cheapest_store` returns `(None, 0)`
when there are no ingredients, and otherwise a pair of a store drawn from the
union of all store names of all price maps together with its total cost,
minimal among the totals of every store of that union. -/
theorem cheapest_store_correct (r : RecipeCost)
    (hinv : ∀ ing ∈ r.ingredients, ing.price_by_store ≠ []) :
    (r.ingredients = [] → r.cheapest_store = some (none, 0)) ∧
    (r.ingredients ≠ [] → ∃ s t, r.cheapest_store = some (some s, t) ∧
      s ∈ all_stores r ∧ t = r.total_cost_at_store s ∧
      ∀ s2 ∈ all_stores r, t ≤ r.total_cost_at_store s2) := by
  constructor
  · intro h
    simp [RecipeCost.cheapest_store, h]
  · intro h
    obtain ⟨ing, l, hing⟩ : ∃ ing l, r.ingredients = ing :: l := by
      cases hi : r.ingredients with
      | nil => exact absurd hi h
      | cons a as => exact ⟨a, as, rfl⟩
    have hps := hinv ing (by rw [hing]; exact List.mem_cons_self _ _)
    obtain ⟨sp, ps2, hsp⟩ : ∃ sp ps2, ing.price_by_store = sp :: ps2 := by
      cases hq : ing.price_by_store with
      | nil => exact absurd hq hps
      | cons a as => exact ⟨a, as, rfl⟩
    have hmem : sp.1 ∈ all_stores r := by
      unfold all_stores
      rw [List.mem_dedup]
      apply List.mem_flatten.mpr
      refine ⟨ing.price_by_store.map Prod.fst, ?_, ?_⟩
      · exact List.mem_map_of_mem _ (by rw [hing]; exact List.mem_cons_self _ _)
      · rw [hsp]
        exact List.mem_map_of_mem _ (List.mem_cons_self _ _)
    obtain ⟨a, as, hall⟩ : ∃ a as, all_stores r = a :: as := by
      cases hq : all_stores r with
      | nil => rw [hq] at hmem; cases hmem
      | cons a as => exact ⟨a, as, rfl⟩
    have hne : r.ingredients.isEmpty = false := by rw [hing]; rfl
    have hcs : r.cheapest_store = some (some
        (min_by_cost (a, r.total_cost_at_store a)
          (as.map (fun store => (store, r.total_cost_at_store store)))).1,
        (min_by_cost (a, r.total_cost_at_store a)
          (as.map (fun store => (store, r.total_cost_at_store store)))).2) := by
      unfold RecipeCost.cheapest_store
      simp [hne, hall]
    refine ⟨(min_by_cost (a, r.total_cost_at_store a)
        (as.map (fun store => (store, r.total_cost_at_store store)))).1,
      (min_by_cost (a, r.total_cost_at_store a)
        (as.map (fun store => (store, r.total_cost_at_store store)))).2,
      hcs, ?_, ?_, ?_⟩
    all_goals
      have hminmem : min_by_cost (a, r.total_cost_at_store a)
          (as.map (fun store => (store, r.total_cost_at_store store)))
            ∈ (a :: as).map (fun store => (store, r.total_cost_at_store store)) := by
        rw [List.map_cons]
        exact min_by_cost_mem _ _
    · obtain ⟨s0, hs0mem, hs0⟩ := List.mem_map.mp hminmem
      rw [← hs0, hall]
      exact hs0mem
    · obtain ⟨s0, hs0mem, hs0⟩ := List.mem_map.mp hminmem
      rw [← hs0]
    · intro s2 hs2
      rw [hall] at hs2
      have hmem2 : (s2, r.total_cost_at_store s2)
          ∈ (a, r.total_cost_at_store a)
            :: as.map (fun store => (store, r.total_cost_at_store store)) := by
        have hm := List.mem_map_of_mem
          (fun store => (store, r.total_cost_at_store store)) hs2
        rw [List.map_cons] at hm
        exact hm
      exact min_by_cost_le _ _ _ hmem2

/-- C1 witness: the nonempty branch at the pancakes recipe. -/
theorem cheapest_store_correct_witness :
    ∃ s t, pancakes.cheapest_store = some (some s, t) ∧
      s ∈ all_stores pancakes ∧ t = pancakes.total_cost_at_store s ∧
      ∀ s2 ∈ all_stores pancakes, t ≤ pancakes.total_cost_at_store s2 :=
  (cheapest_store_correct pancakes (by rw [pancakes_eq]; decide)).2
    (by rw [pancakes_eq]; decide)
